import Mathlib

set_option maxRecDepth 8192

namespace logging

/-- Character-list model of a C++ std::string. -/
abbrev Str := List Char

/-- Model of the severity enum from LogBase.hpp. -/
inductive severity where
| info
| warning
| error
deriving DecidableEq

/-- Model of Severity::operator std::string from LogBase.hpp: the switch over the
severity value.  The Lean inductive has exactly the three enum values, so the
C++ default branch (returning an empty string) is unreachable here. -/
def Severity_to_string : severity → Str
| severity.info => "INFO".data
| severity.warning => "WARNING".data
| severity.error => "ERROR".data

/-- Model of operator<<(std::ostream, Severity): appends std::string(s) to the stream. -/
def Severity_stream (os : Str) (s : severity) : Str :=
  os ++ Severity_to_string s

/-- Model of Severity::get_max_severity_length: the source returns 8. -/
def get_max_severity_length : Nat := 8

/-- Model of std::string::find restricted to a suffix: the first index of the
suffix t at which the pattern d occurs (an occurrence must fit inside t,
matching the C++ requirement pos + d.size() <= size). -/
def find_in (t d : Str) : Option Nat :=
  match t with
  | [] => if d = [] then some 0 else none
  | c :: rest => if (c :: rest).take d.length = d then some 0 else (find_in rest d).map (· + 1)

/-- Model of s.find(d, i) from the C++ standard library: the first position
p with i <= p, p + d.length <= s.length and d occurring at p; none models npos. -/
def find_from (s d : Str) (i : Nat) : Option Nat :=
  if i ≤ s.length then (find_in (s.drop i) d).map (· + i) else none

/-- Model of the find/substr loop body of logging::split_string (LogBase.hpp).
The fuel argument counts the remaining loop iterations the model may take;
the C++ loop has no such bound, so a result of none means the loop has not
finished within the given number of iterations. -/
def split_string_loop (s d : Str) (position_start : Nat) : Nat → Option (List Str)
| 0 => none
| fuel + 1 =>
  match find_from s d position_start with
  | some position_end =>
    (split_string_loop s d (position_end + d.length) fuel).map
      (fun tokens => (s.drop position_start).take (position_end - position_start) :: tokens)
  | none => some [s.drop position_start]

/-- Model of logging::split_string (LogBase.hpp): run the loop with enough
fuel for every terminating execution (one iteration per delimiter occurrence,
each advancing the position by at least one, plus the final push). -/
def split_string (s d : Str) : Option (List Str) :=
  split_string_loop s d 0 (s.length + 1)

/-- Proposition that the split loop of split_string terminates on s and d:
some number of iterations suffices to produce the token list. -/
def split_terminates (s d : Str) : Prop :=
  ∃ fuel, (split_string_loop s d 0 fuel).isSome

/-- Joining a list of tokens with a separator, in order: the rejoin direction
of the split round trip. -/
def join_with (d : Str) : List Str → Str
| [] => []
| [t] => t
| t :: ts => t ++ d ++ join_with d ts

theorem join_with_cons (d t : Str) (ts : List Str) (h : ts ≠ []) :
    join_with d (t :: ts) = t ++ d ++ join_with d ts := by
  cases ts with
  | nil => exact absurd rfl h
  | cons u us => rfl

theorem find_in_some (t d : Str) (e : Nat) (h : find_in t d = some e) :
    e + d.length ≤ t.length ∧ (t.drop e).take d.length = d := by
  induction t generalizing e with
  | nil =>
    simp only [find_in] at h
    split_ifs at h with hd
    subst hd
    have he : e = 0 := by simpa using h.symm
    subst he
    simp
  | cons c rest ih =>
    simp only [find_in] at h
    split_ifs at h with htake
    · have he : e = 0 := by simpa using h.symm
      subst he
      have hlen := congrArg List.length htake
      simp only [List.length_take] at hlen
      constructor
      · omega
      · simpa using htake
    · cases hf : find_in rest d with
      | none => rw [hf] at h; simp at h
      | some e' =>
        rw [hf] at h
        simp only [Option.map_some'] at h
        have he : e = e' + 1 := (Option.some_inj.mp h).symm
        subst he
        obtain ⟨h1, h2⟩ := ih e' hf
        constructor
        · simp only [List.length_cons]; omega
        · simpa using h2

theorem find_from_some (s d : Str) (i e : Nat) (h : find_from s d i = some e) :
    i ≤ e ∧ e + d.length ≤ s.length ∧ (s.drop e).take d.length = d := by
  simp only [find_from] at h
  split_ifs at h with hi
  cases hf : find_in (s.drop i) d with
  | none => rw [hf] at h; simp at h
  | some e' =>
    rw [hf] at h
    simp only [Option.map_some'] at h
    have he : e = e' + i := (Option.some_inj.mp h).symm
    subst he
    obtain ⟨h1, h2⟩ := find_in_some (s.drop i) d e' hf
    rw [List.length_drop] at h1
    refine ⟨by omega, by omega, ?_⟩
    rw [List.drop_drop] at h2
    rw [Nat.add_comm e' i]
    exact h2

theorem split_string_loop_isSome (fuel : Nat) :
    ∀ (s d : Str) (start : Nat), d ≠ [] → start ≤ s.length →
    s.length + 1 ≤ fuel + start →
    (split_string_loop s d start fuel).isSome := by
  induction fuel with
  | zero =>
    intro s d start _ hs hf
    omega
  | succ fuel ih =>
    intro s d start hd hs hf
    simp only [split_string_loop]
    cases hfind : find_from s d start with
    | none => simp
    | some e =>
      obtain ⟨h1, h2, _⟩ := find_from_some s d start e hfind
      have hdl : 1 ≤ d.length := List.length_pos.mpr hd
      have := ih s d (e + d.length) hd (by omega) (by omega)
      simpa using this

theorem split_string_loop_ne_nil (fuel : Nat) (s d : Str) (start : Nat) (l : List Str)
    (h : split_string_loop s d start fuel = some l) : l ≠ [] := by
  cases fuel with
  | zero => simp [split_string_loop] at h
  | succ fuel =>
    simp only [split_string_loop] at h
    split at h
    · obtain ⟨rest, hrec, hl⟩ := Option.map_eq_some'.mp h
      subst hl
      simp
    · have hl : [s.drop start] = l := by simpa using h
      subst hl
      simp

theorem split_string_loop_join (fuel : Nat) :
    ∀ (s d : Str) (start : Nat) (l : List Str),
    split_string_loop s d start fuel = some l →
    join_with d l = s.drop start := by
  induction fuel with
  | zero => intro s d start l h; simp [split_string_loop] at h
  | succ fuel ih =>
    intro s d start l h
    simp only [split_string_loop] at h
    split at h
    · rename_i e hfind
      obtain ⟨rest, hrec, hl⟩ := Option.map_eq_some'.mp h
      subst hl
      have hne := split_string_loop_ne_nil fuel s d (e + d.length) rest hrec
      have hjoin := ih s d (e + d.length) rest hrec
      obtain ⟨h1, h2, h3⟩ := find_from_some s d start e hfind
      rw [join_with_cons d _ rest hne, hjoin]
      have hd1 : (s.drop start).drop (e - start) = s.drop e := by
        rw [List.drop_drop]
        congr 1
        omega
      have hd2 : (s.drop e).drop d.length = s.drop (e + d.length) := by
        rw [List.drop_drop]
      calc (s.drop start).take (e - start) ++ d ++ s.drop (e + d.length)
          = (s.drop start).take (e - start) ++
            ((s.drop e).take d.length ++ (s.drop e).drop d.length) := by
            rw [List.append_assoc, h3, hd2]
        _ = (s.drop start).take (e - start) ++ (s.drop start).drop (e - start) := by
            rw [List.take_append_drop, hd1]
        _ = s.drop start := List.take_append_drop _ _
    · have hl : [s.drop start] = l := by simpa using h
      subst hl
      rfl

theorem find_in_nil_delim (t : Str) : find_in t [] = some 0 := by
  cases t <;> simp [find_in]

theorem split_string_loop_empty_delim (fuel : Nat) :
    ∀ (s : Str) (start : Nat), start ≤ s.length →
    split_string_loop s [] start fuel = none := by
  induction fuel with
  | zero => intro s start _; rfl
  | succ fuel ih =>
    intro s start hs
    have hfind : find_from s [] start = some start := by
      simp [find_from, hs, find_in_nil_delim]
    simp only [split_string_loop, hfind]
    have : start + List.length ([] : Str) = start := by simp
    rw [this, ih s start hs]
    rfl

/-- Model of the time_template constant of LogBase.hpp. -/
def time_template : Str := "9999-12-31 29:59:59.9999".data

/-- Model of time_template_width: sizeof(time_template), which counts the
terminating NUL byte of the C array, so it is the character count plus one. -/
def time_template_width : Nat := time_template.length + 1

/-- A run of n fill spaces, as produced by stream padding or std::string(n, ' '). -/
def spaces (n : Nat) : Str := List.replicate n ' '

/-- Model of streaming a string after std::setw(w) with std::right in effect:
fill spaces first, then the text; no padding when the text is at least w long. -/
def pad_left (w : Nat) (s : Str) : Str := spaces (w - s.length) ++ s

/-- Model of streaming a string after std::setw(w) with std::left in effect:
the text first, then fill spaces; no padding when the text is at least w long. -/
def pad_right (w : Nat) (s : Str) : Str := s ++ spaces (w - s.length)

/-- The newline delimiter both console::print and exception::format_message
pass to split_string. -/
def newline : Str := ['\n']

/-- A message as queued by console::print_parallel: the tuple
(message, name, severity) pushed onto the print queue. -/
structure Msg where
  message : Str
  name : Str
  sev : severity
deriving DecidableEq

/-- The mutable state of the console singleton of LogConsole.hpp: the static
max_name_width (initialised to 40 at namespace scope), the print queue the
background worker drains, and the text written to standard output so far.
The timestamp clock and the terminal width are external inputs, so the
operations take them as arguments. -/
structure ConsoleState where
  max_name_width : Nat
  print_queue : List Msg
  std_out : Str
deriving DecidableEq

/-- The header console::print streams before the first message line:
bracketed timestamp, severity and name columns, each left-justified by setw
(the literal bracket characters are streamed outside the padded fields). -/
def print_header (max_name_width : Nat) (name : Str) (sev : severity) (timestamp : Str) : Str :=
  ['['] ++ pad_right time_template_width (timestamp ++ [']'])
  ++ ['['] ++ pad_right (get_max_severity_length + 2) (Severity_to_string sev ++ [']'])
  ++ ['('] ++ pad_right (max_name_width + 2) (name ++ [')'])

/-- The string console::print writes to standard output, as a function of the
already-updated max_name_width, the message, name and severity, the generated
timestamp and the width get_console_width returned.  The code subtracts one
from the console width for the newline, right-aligns the first message line in
the space remaining after the header, and right-aligns every further line
across the whole row; each setw width covers the trailing newline because the
code pads the string line + "\n".  (The loop of the source that computes
max_message_width stores a value no further statement reads, so it has no
effect on the output.)  The fallback branch is unreachable: split_string on
the non-empty newline delimiter always returns at least one token. -/
def print_format (max_name_width : Nat) (message name : Str) (sev : severity)
    (timestamp : Str) (raw_console_width : Nat) : Str :=
  let header := print_header max_name_width name sev timestamp
  let console_width := raw_console_width - 1
  match split_string message newline with
  | some (first :: rest) =>
    header ++ pad_left (console_width - header.length) (first ++ newline)
      ++ (rest.map (fun line => pad_left console_width (line ++ newline))).flatten
  | _ => header

/-- Model of console::print: update the static max_name_width to the maximum
of its previous value and the name length, then format the message with the
updated width and append the formatted string to standard output. -/
def print (st : ConsoleState) (message name : Str) (sev : severity)
    (timestamp : Str) (raw_console_width : Nat) : ConsoleState :=
  let w := max st.max_name_width name.length
  { st with
    max_name_width := w
    std_out := st.std_out ++ print_format w message name sev timestamp raw_console_width }

/-- Model of console::print_parallel: push the (message, name, severity)
tuple onto the back of the print queue under the queue mutex. -/
def print_parallel (st : ConsoleState) (m : Msg) : ConsoleState :=
  { st with print_queue := st.print_queue ++ [m] }

/-- Model of console::set_max_name_length: overwrite the tracked width. -/
def set_max_name_length (st : ConsoleState) (length : Nat) : ConsoleState :=
  { st with max_name_width := length }

/-- Model of one iteration of console::empty_print_queue in which the wait
succeeded: take the front tuple off the queue, pop it, and print it with
console::print.  When the queue is empty the wait times out and the iteration
changes nothing. -/
def empty_print_queue_step (st : ConsoleState) (timestamp : Str)
    (raw_console_width : Nat) : ConsoleState :=
  match st.print_queue with
  | [] => st
  | m :: rest =>
    print { st with print_queue := rest } m.message m.name m.sev timestamp raw_console_width

namespace exception

/-- The header exception::format_message streams before the first message
line: severity and name in brackets followed by twelve literal spaces; no
setw is pending, so nothing is padded. -/
def format_message_header (name : Str) (sev : severity) : Str :=
  ['['] ++ (Severity_to_string sev ++ "] (".data) ++ (name ++ ") ".data) ++ spaces 12

/-- Model of logging::exception::format_message (LogException.hpp).  It takes
the console state only to show it neither reads nor changes it: the source
function touches no static of the console class and writes nothing to standard
output, it only returns the formatted string.  Continuation lines are
right-aligned by setw to the length of the first output line minus one (the
newline is streamed separately by std::endl, so here it is not inside the
padded field).  The fallback branch is unreachable: split_string on the
non-empty newline delimiter always returns at least one token. -/
def format_message (st : ConsoleState) (message name : Str) (sev : severity) :
    ConsoleState × Str :=
  match split_string message newline with
  | some (first :: rest) =>
    let first_part := format_message_header name sev ++ first ++ newline
    let first_line_width := first_part.length - 1
    (st, first_part ++ (rest.map (fun line => pad_left first_line_width line ++ newline)).flatten)
  | _ => (st, [])

end exception

/-- An event of the producer/consumer system of LogConsole.hpp: either some
thread calls print_parallel, or the worker thread executes one loop iteration
of empty_print_queue (with the timestamp and console width it would observe). -/
inductive Ev where
| enq (m : Msg)
| serve (timestamp : Str) (raw_console_width : Nat)

/-- The console state paired with the history of messages the worker thread
has taken off the queue and printed, in order. -/
structure WorkerState where
  console : ConsoleState
  printed : List Msg

/-- One step of the producer/consumer system: an enqueue runs print_parallel;
a serve runs one empty_print_queue iteration, and when the queue is non-empty
the front message is the one the worker prints, so it is appended to the
printed history. -/
def worker_step (ws : WorkerState) : Ev → WorkerState
| Ev.enq m => { ws with console := print_parallel ws.console m }
| Ev.serve ts cw =>
  match ws.console.print_queue with
  | [] => ws
  | m :: _ =>
    { console := empty_print_queue_step ws.console ts cw
      printed := ws.printed ++ [m] }

/-- Run a sequence of events from a worker state. -/
def worker_run (ws : WorkerState) : List Ev → WorkerState
| [] => ws
| e :: es => worker_run (worker_step ws e) es

/-- The messages enqueued by a sequence of events, in submission order. -/
def enqueued_messages : List Ev → List Msg
| [] => []
| Ev.enq m :: es => m :: enqueued_messages es
| Ev.serve _ _ :: es => enqueued_messages es

/-- Running console::print over a list of calls, each with its message, name,
severity, observed timestamp and observed console width. -/
def print_seq (st : ConsoleState) : List (Str × Str × severity × Str × Nat) → ConsoleState
| [] => st
| (m, n, sev, ts, cw) :: calls => print_seq (print st m n sev ts cw) calls

/-- A fixed concrete timestamp string of the shape generate_timestamp yields,
used to evaluate the model on concrete inputs. -/
def ts0 : Str := "2023-04-17 12:00:00.000".data

theorem split_string_some (s d : Str) (hd : d ≠ []) :
    ∃ l, split_string s d = some l ∧ l ≠ [] ∧ join_with d l = s := by
  have h := split_string_loop_isSome (s.length + 1) s d 0 hd (by omega) (by omega)
  unfold split_string
  cases hl : split_string_loop s d 0 (s.length + 1) with
  | none => rw [hl] at h; simp at h
  | some l =>
    refine ⟨l, rfl, split_string_loop_ne_nil _ s d 0 l hl, ?_⟩
    simpa using split_string_loop_join (s.length + 1) s d 0 l hl

/-- Claim C2 counterexample: with the empty delimiter, split_string does not
return a deque at all.  Within the fuel the model allots it yields no result,
and no amount of fuel makes the loop finish: the search position never
advances, so the loop of the source runs forever. -/
theorem split_string_empty_delim_no_return :
    split_string "x".data "".data = none ∧ ¬ split_terminates "x".data "".data := by
  constructor
  · exact split_string_loop_empty_delim 2 "x".data 0 (by decide)
  · rintro ⟨fuel, hfuel⟩
    rw [split_string_loop_empty_delim fuel "x".data 0 (by decide)] at hfuel
    simp at hfuel

/-- Claim C2 (amended): for every string s and every non-empty delimiter d —
in particular the newline delimiter both call sites pass — split_string
returns a deque with at least one element, so the unchecked front access in
console::print and exception::format_message never reads an empty container. -/
theorem split_string_returns_nonempty (s d : Str) (hd : d ≠ []) :
    ∃ l, split_string s d = some l ∧ 1 ≤ l.length := by
  obtain ⟨l, hl, hne, _⟩ := split_string_some s d hd
  exact ⟨l, hl, by cases l with | nil => exact absurd rfl hne | cons t ts => simp⟩

theorem split_string_returns_nonempty_witness :
    ∃ l, split_string "Test2\nTest2".data "\n".data = some l ∧ 1 ≤ l.length :=
  split_string_returns_nonempty "Test2\nTest2".data "\n".data (by decide)

/-- Claim C3: for every string s and every non-empty delimiter d, joining the
tokens of split_string s d in order with d as separator yields s again. -/
theorem split_string_join (s d : Str) (hd : d ≠ []) :
    ∃ l, split_string s d = some l ∧ join_with d l = s := by
  obtain ⟨l, hl, _, hjoin⟩ := split_string_some s d hd
  exact ⟨l, hl, hjoin⟩

theorem split_string_join_witness :
    ∃ l, split_string "a\nbc\n\nd".data "\n".data = some l ∧
      join_with "\n".data l = "a\nbc\n\nd".data :=
  split_string_join "a\nbc\n\nd".data "\n".data (by decide)

/-- Claim C10: split_string terminates whenever the delimiter is non-empty:
every occurrence of the delimiter advances the search position by its positive
length, so length s + 1 loop iterations always reach the end of the string. -/
theorem split_string_terminates_nonempty_delim (s d : Str) (hd : d ≠ []) :
    (split_string s d).isSome := by
  exact split_string_loop_isSome (s.length + 1) s d 0 hd (by omega) (by omega)

theorem split_string_terminates_witness :
    (split_string "Test3\nTest3Test3Test3Test3Test3".data "\n".data).isSome :=
  split_string_terminates_nonempty_delim "Test3\nTest3Test3Test3Test3Test3".data
    "\n".data (by decide)

/-- Claim C8: the Severity class maps info to INFO, warning to WARNING and
error to ERROR, and streaming a Severity with operator<< writes exactly the
same string onto the stream. -/
theorem Severity_string_mapping :
    Severity_to_string severity.info = "INFO".data ∧
    Severity_to_string severity.warning = "WARNING".data ∧
    Severity_to_string severity.error = "ERROR".data ∧
    ∀ os : Str,
      Severity_stream os severity.info = os ++ "INFO".data ∧
      Severity_stream os severity.warning = os ++ "WARNING".data ∧
      Severity_stream os severity.error = os ++ "ERROR".data :=
  ⟨rfl, rfl, rfl, fun _ => ⟨rfl, rfl, rfl⟩⟩

theorem print_seq_mono (calls : List (Str × Str × severity × Str × Nat)) :
    ∀ st : ConsoleState, st.max_name_width ≤ (print_seq st calls).max_name_width := by
  induction calls with
  | nil => intro st; exact Nat.le_refl _
  | cons c calls ih =>
    intro st
    obtain ⟨m, n, sev, ts, cw⟩ := c
    calc st.max_name_width ≤ (print st m n sev ts cw).max_name_width :=
          Nat.le_max_left _ _
      _ ≤ (print_seq (print st m n sev ts cw) calls).max_name_width := ih _

/-- Claim C4: every console::print call sets the tracked maximum name width to
the maximum of its previous value and the length of the printed name, and over
any sequence of print calls the tracked width never decreases. -/
theorem max_name_width_monotone (st : ConsoleState) (m n : Str) (sev : severity)
    (ts : Str) (cw : Nat) (calls : List (Str × Str × severity × Str × Nat)) :
    (print st m n sev ts cw).max_name_width = max st.max_name_width n.length ∧
    st.max_name_width ≤ (print_seq st calls).max_name_width :=
  ⟨rfl, print_seq_mono calls st⟩

/-- Claim C9: exception::format_message is stateless and deterministic: the
string it returns is the same from any two console states (in particular it
does not read the tracked maximum name width), and the console state —
including the text on standard output — is returned unchanged. -/
theorem format_message_stateless (st st' : ConsoleState) (m n : Str) (sev : severity) :
    (exception.format_message st m n sev).2 = (exception.format_message st' m n sev).2 ∧
    (exception.format_message st m n sev).1 = st ∧
    (exception.format_message st m n sev).1.std_out = st.std_out := by
  refine ⟨?_, ?_, ?_⟩ <;>
    · unfold exception.format_message
      cases split_string m newline with
      | none => rfl
      | some l => cases l with
        | nil => rfl
        | cons first rest => rfl

/-- Claim C5: the asynchronous path applies the same formatting as the
synchronous one.  If a message submitted by print_parallel is at the front of
the queue, the iteration of empty_print_queue that services it appends to
standard output exactly the string console::print produces in that state, and
leaves the same tracked width; in particular, enqueueing onto an idle console
and letting the worker drain it writes the same output as calling print
directly. -/
theorem print_parallel_refines_print (st : ConsoleState) (m : Msg) (ts : Str) (cw : Nat)
    (h : st.print_queue = []) :
    (empty_print_queue_step (print_parallel st m) ts cw).std_out
        = (print st m.message m.name m.sev ts cw).std_out ∧
    (empty_print_queue_step (print_parallel st m) ts cw).std_out
        = st.std_out ++ print_format (max st.max_name_width m.name.length)
            m.message m.name m.sev ts cw ∧
    (empty_print_queue_step (print_parallel st m) ts cw).max_name_width
        = (print st m.message m.name m.sev ts cw).max_name_width := by
  cases st with
  | mk w q out =>
    simp only at h
    subst h
    simp [empty_print_queue_step, print_parallel, print]

theorem print_parallel_refines_print_witness :
    (empty_print_queue_step
        (print_parallel ⟨5, [], []⟩ ⟨"a".data, "N".data, severity.info⟩) ts0 80).std_out
      = (print ⟨5, [], []⟩ "a".data "N".data severity.info ts0 80).std_out :=
  (print_parallel_refines_print ⟨5, [], []⟩ ⟨"a".data, "N".data, severity.info⟩
    ts0 80 rfl).1

theorem worker_run_invariant (es : List Ev) :
    ∀ ws : WorkerState,
    (worker_run ws es).printed ++ (worker_run ws es).console.print_queue
      = ws.printed ++ ws.console.print_queue ++ enqueued_messages es := by
  induction es with
  | nil => intro ws; simp [worker_run, enqueued_messages]
  | cons e es ih =>
    intro ws
    cases e with
    | enq m =>
      simp only [worker_run, enqueued_messages]
      rw [ih]
      simp [worker_step, print_parallel, List.append_assoc]
    | serve ts cw =>
      simp only [worker_run, enqueued_messages]
      rw [ih]
      cases hq : ws.console.print_queue with
      | nil => simp [worker_step, hq]
      | cons m rest =>
        simp [worker_step, hq, empty_print_queue_step, print, List.append_assoc]

/-- Claim C7: starting from an empty queue, over any interleaving of
print_parallel calls and worker iterations the messages the worker has printed
followed by the messages still queued equal the enqueued messages in
submission order; hence the worker drains the queue first-in first-out and no
message is printed twice or skipped. -/
theorem print_queue_fifo (w : Nat) (out : Str) (es : List Ev) :
    (worker_run ⟨⟨w, [], out⟩, []⟩ es).printed
      ++ (worker_run ⟨⟨w, [], out⟩, []⟩ es).console.print_queue
      = enqueued_messages es := by
  have h := worker_run_invariant es ⟨⟨w, [], out⟩, []⟩
  simpa using h

/-- Claim C1 counterexample: printing the empty message is not a no-op.  With
the width state at its initial value 40, console::print on an empty message
writes a non-empty string (the full header row) to standard output, and
exception::format_message on an empty message returns a non-empty string. -/
theorem print_empty_message_not_noop :
    (print ⟨40, [], []⟩ [] "A".data severity.info ts0 80).std_out ≠ [] ∧
    (exception.format_message ⟨40, [], []⟩ [] "A".data severity.info).2 ≠ [] := by
  constructor
  · decide
  · decide

/-- Claim C1 (amended): an empty message is not special-cased anywhere; the
console still emits exactly one formatted row consisting of the header and a
padded newline with an empty message field, and format_message still returns
its header followed by a newline — in neither case is nothing produced. -/
theorem print_empty_message_one_line (w : Nat) (name : Str) (sev : severity)
    (ts : Str) (cw : Nat) (st : ConsoleState) :
    print_format w [] name sev ts cw
      = print_header w name sev ts
        ++ pad_left ((cw - 1) - (print_header w name sev ts).length) newline ∧
    print_format w [] name sev ts cw ≠ [] ∧
    (exception.format_message st [] name sev).2
      = exception.format_message_header name sev ++ newline ∧
    (exception.format_message st [] name sev).2 ≠ [] := by
  have hsplit : split_string [] newline = some [[]] := rfl
  refine ⟨?_, ?_, ?_, ?_⟩
  · simp [print_format, hsplit]
  · simp [print_format, hsplit, print_header]
  · simp [exception.format_message, hsplit]
  · simp [exception.format_message, hsplit, exception.format_message_header]

/-- Modelled from the words of claim C6: a continuation row in which the line
text comes first and padding spaces follow, filling the row (whose width
includes its newline character) out to the console width. -/
def continuation_row_claim (console_width : Nat) (line : Str) : Str :=
  line ++ spaces (console_width - (line.length + 1)) ++ newline

/-- Claim C6 counterexample: for the two-line message a\nb printed at console
width 80, the final row of the formatted output is the left-padded
(right-aligned) row — the padding spaces come first and the line text follows
— and that row differs from the right-padded row the claim describes. -/
theorem continuation_row_not_right_padded :
    (print_format 5 "a\nb".data "N".data severity.info ts0 80).drop
        ((print_format 5 "a\nb".data "N".data severity.info ts0 80).length - 79)
      = pad_left 79 ("b".data ++ newline) ∧
    pad_left 79 ("b".data ++ newline) ≠ continuation_row_claim 79 "b".data := by
  constructor
  · decide
  · decide

/-- Claim C6 (amended): every continuation line of a multi-line message is
left-padded, i.e. right-aligned: the emitted row is padding spaces, then the
line text, then the newline, and the row including its newline character fills
the console width (get_console_width minus one) whenever the line fits. -/
theorem continuation_row_right_aligned (w : Nat) (message name : Str) (sev : severity)
    (ts : Str) (cw : Nat) (first : Str) (rest : List Str)
    (h : split_string message newline = some (first :: rest)) :
    print_format w message name sev ts cw
      = print_header w name sev ts
        ++ pad_left ((cw - 1) - (print_header w name sev ts).length) (first ++ newline)
        ++ (rest.map
            (fun line => spaces ((cw - 1) - (line.length + 1)) ++ (line ++ newline))).flatten := by
  have h' : split_string message ['\n'] = some (first :: rest) := h
  simp [print_format, h', pad_left, newline]

theorem continuation_row_right_aligned_witness :
    print_format 5 "a\nb".data "N".data severity.info ts0 80
      = print_header 5 "N".data severity.info ts0
        ++ pad_left ((80 - 1) - (print_header 5 "N".data severity.info ts0).length)
            ("a".data ++ newline)
        ++ (["b".data].map
            (fun line => spaces ((80 - 1) - (line.length + 1)) ++ (line ++ newline))).flatten :=
  continuation_row_right_aligned 5 "a\nb".data "N".data severity.info ts0 80
    "a".data ["b".data] (by decide)

end logging
